import Mathlib

/-!
Verification development for the workflow execution engine of
`workflow-engine-core.ts` (FlowAutomationApp).

The engine module is translated as a shallow embedding:

* JS objects used as string-keyed records (`NodeData`) become association
  lists `List (String × Value)` with JS assignment semantics (`setKey`,
  `objAssign` for `Object.assign`, `lookupKey` for property access).
* `Date.now()` / `new Date()` are modelled by a natural-number tick counter
  threaded through the engine state; only the presence and relative order of
  timestamps matter to the engine, never their magnitude.
* Node processors (`BaseNodeProcessor.execute`, which either resolves with an
  output record or rejects with an error) are modelled as functions
  `NodeExecutionContext → Except String NodeData`.  The engine is
  parametrised by the processor registry (`this.processors`, keyed by node
  id) and by the fallback processor constructor (`new MockAIProcessor(node)`,
  whose concrete behaviour is wall-clock/random dependent and irrelevant to
  the engine-level properties proved here).
* The engine's mutation of the `WorkflowExecution` record under construction
  is explicit state passing (`EngineState`); the workflow itself is carried
  in the same state so that the read-only/frame property of the run is a
  provable statement rather than a modelling assumption.
* The type-specific configuration payloads of the eight `NodeConfig`
  variants (apiEndpoint, tableName, recipients, …) are never read by the
  execution engine, scheduler, validator or input router, and are omitted
  from the embedded `NodeConfig`; the discriminant `type` and the base
  fields, which those operations do read, are kept.
-/

/-- Embedding of `DataValue` from the source: `string | number | boolean | object | null |
undefined`.  Numbers are modelled as integers: the engine never computes with
them, it only stores and routes them. -/
inductive Value where
  | str : String → Value
  | num : Int → Value
  | bool : Bool → Value
  | null : Value
  | undef : Value
  | obj : List (String × Value) → Value

/-- Embedding of `NodeData`: a JS object used as a string-keyed record. -/
abbrev NodeData := List (String × Value)

/-- JS property read `d[k]`, as an `Option` (`none` = key absent). -/
def lookupKey (d : NodeData) (k : String) : Option Value :=
  (List.find? (fun p => p.1 = k) d).map (fun p => p.2)

/-- JS property write `d[k] = v`: overwrite in place if the key exists,
otherwise append. -/
def setKey (d : NodeData) (k : String) (v : Value) : NodeData :=
  match d with
  | [] => [(k, v)]
  | p :: rest => if p.1 = k then (k, v) :: rest else p :: setKey rest k v

/-- Embedding of `Object.assign(target, source)`: every key of `source`, in order,
overwrites the corresponding key of `target`. -/
def objAssign (target source : NodeData) : NodeData :=
  source.foldl (fun t p => setKey t p.1 p.2) target

/-- Embedding of `NodeType` from the source. -/
inductive NodeType where
  | action | trigger | table | page | email | invoice | report | notification
deriving DecidableEq, Repr

/-- Embedding of `ExecutionStatus` from the source. -/
inductive ExecutionStatus where
  | pending | running | completed | failed | skipped
deriving DecidableEq, Repr

/-- Embedding of `NodeConnection` from the source. -/
structure NodeConnection where
  id : String
  sourceNodeId : String
  targetNodeId : String
  sourceOutput : String
  targetInput : String
  label : Option String := none
deriving DecidableEq, Repr

/-- Embedding of `NodeConfig`, restricted to the base fields (`BaseNodeConfig`) plus the
`type` discriminant; the variant-specific payload fields are never read by
any embedded operation (see the module comment). -/
structure NodeConfig where
  id : String
  type : NodeType
  name : String
  description : Option String := none
  position : Int × Int := (0, 0)
  enabled : Bool
  retryCount : Option Nat := none
  timeout : Option Nat := none
deriving DecidableEq, Repr

/-- Embedding of the `errorHandling` enum of `Workflow.settings`. -/
inductive ErrorHandling where
  | stop | «continue» | retry
deriving DecidableEq, Repr

structure WorkflowSettings where
  maxExecutionTime : Option Nat := none
  maxRetries : Option Nat := none
  errorHandling : ErrorHandling
deriving DecidableEq, Repr

/-- Embedding of `Workflow` from the source (dates as ticks). -/
structure Workflow where
  id : String
  name : String
  description : Option String := none
  version : String
  createdAt : Nat := 0
  updatedAt : Nat := 0
  isActive : Bool := true
  nodes : List NodeConfig
  connections : List NodeConnection
  «variables» : Option NodeData := none
  settings : WorkflowSettings

/-- Embedding of `NodeExecutionContext` from the source. -/
structure NodeExecutionContext where
  nodeId : String
  workflowId : String
  executionId : String
  inputData : NodeData
  outputData : NodeData
  status : ExecutionStatus
  startTime : Option Nat := none
  endTime : Option Nat := none
  error : Option String := none
  logs : List String := []

/-- Embedding of `WorkflowExecution` from the source. -/
structure WorkflowExecution where
  id : String
  workflowId : String
  status : ExecutionStatus
  startTime : Nat
  endTime : Option Nat := none
  triggerData : Option NodeData := none
  nodeExecutions : List NodeExecutionContext
  error : Option String := none

/-- A node processor: `execute(context)` either resolves with an output
record or rejects with an error message. -/
def NodeProcessor := NodeExecutionContext → Except String NodeData

/-- Embedding of `WorkflowExecutionEngine.getNodeInputData`, translated clause for clause:
connection-routed inputs from completed sources first, then
`Object.assign(inputData, workflow.variables)`, then — for trigger nodes —
`Object.assign(inputData, execution.triggerData)`. -/
def getNodeInputData (node : NodeConfig) (workflow : Workflow)
    (execution : WorkflowExecution) : NodeData :=
  let inputData : NodeData := []
  let incoming := workflow.connections.filter (fun c => c.targetNodeId = node.id)
  let inputData := incoming.foldl (fun d conn =>
    match execution.nodeExecutions.find? (fun e => e.nodeId = conn.sourceNodeId) with
    | some sourceExecution =>
        if sourceExecution.status = ExecutionStatus.completed then
          setKey d conn.targetInput
            ((lookupKey sourceExecution.outputData conn.sourceOutput).getD Value.undef)
        else d
    | none => d) inputData
  let inputData :=
    match workflow.«variables» with
    | some vars => objAssign inputData vars
    | none => inputData
  let inputData :=
    if node.type = NodeType.trigger then
      match execution.triggerData with
      | some td => objAssign inputData td
      | none => inputData
    else inputData
  inputData

/-- The `visit` closure of `WorkflowExecutionEngine.getExecutionOrder`.  State
is `(visited, order)`.  A visited node returns immediately; otherwise the node
is marked visited, the sources of the connections targeting it (its
dependencies) are visited in connection order, and the node is appended to
the order.  The source recursion terminates because `visited` guards
re-entry; here that argument is made explicit through a fuel parameter that
strictly dominates the recursion depth (each nesting level marks one fresh
node id, and only ids occurring in the workflow are ever marked, so the fuel
chosen in `getExecutionOrder` is never exhausted). -/
def visitF (conns : List NodeConnection) :
    Nat → String → List String × List String → List String × List String
  | 0, _, st => st
  | fuel + 1, nodeId, st =>
    if nodeId ∈ st.1 then st
    else
      let dependencies :=
        (conns.filter (fun c => c.targetNodeId = nodeId)).map (fun c => c.sourceNodeId)
      let st' := dependencies.foldl
        (fun s d => visitF conns fuel d s) (nodeId :: st.1, st.2)
      (st'.1, st'.2 ++ [nodeId])

/-- Embedding of `WorkflowExecutionEngine.getExecutionOrder`: run `visit` on every trigger
node, in node-list order, sharing the `(visited, order)` state; return the
accumulated order. -/
def getExecutionOrder (workflow : Workflow) : List String :=
  let fuel := workflow.nodes.length + workflow.connections.length + 1
  let st := (workflow.nodes.filter (fun n => n.type = NodeType.trigger)).foldl
    (fun st n => visitF workflow.connections fuel n.id st) ([], [])
  st.2

/-- The `hasCycle` closure of `WorkflowUtils.hasCircularDependencies`.
Arguments: fuel, current node id, `visited` set, recursion `stack`.  Returns
the detection flag and the updated `visited` set.  The source's
`recursionStack` is passed downward only: on every `false` return the source
deletes the node from the stack, and on a `true` return the whole computation
short-circuits, so the entry stack is exactly the live recursion path.  The
per-dependency loop `if (hasCycle(dep)) return true` is the short-circuiting
fold.  Fuel plays the same role as in `visitF`. -/
def hasCycleF (conns : List NodeConnection) :
    Nat → String → List String → List String → Bool × List String
  | 0, _, visited, _ => (false, visited)
  | fuel + 1, nodeId, visited, stack =>
    if nodeId ∈ stack then (true, visited)
    else if nodeId ∈ visited then (false, visited)
    else
      let dependencies :=
        (conns.filter (fun c => c.sourceNodeId = nodeId)).map (fun c => c.targetNodeId)
      dependencies.foldl
        (fun acc d => if acc.1 then acc else hasCycleF conns fuel d acc.2 (nodeId :: stack))
        (false, nodeId :: visited)

/-- Embedding of `WorkflowUtils.hasCircularDependencies`: run `hasCycle` from every node in
the list, sharing `visited` and short-circuiting on the first `true`. -/
def hasCircularDependencies (workflow : Workflow) : Bool :=
  let fuel := workflow.nodes.length + workflow.connections.length + 1
  (workflow.nodes.foldl
    (fun acc n => if acc.1 then acc else hasCycleF workflow.connections fuel n.id acc.2 [])
    (false, [])).1

/-- Result record of `WorkflowUtils.validateWorkflow`. -/
structure ValidationResult where
  isValid : Bool
  errors : List String

/-- Embedding of `WorkflowUtils.validateWorkflow`: trigger-presence check, then cycle
check, then one error per dangling connection endpoint; `isValid` iff the
collected error list is empty. -/
def validateWorkflow (workflow : Workflow) : ValidationResult :=
  let errors : List String := []
  let errors :=
    if (workflow.nodes.filter (fun n => n.type = NodeType.trigger)).length = 0 then
      errors ++ ["Workflow must have at least one trigger node"]
    else errors
  let errors :=
    if hasCircularDependencies workflow then
      errors ++ ["Workflow contains circular dependencies"]
    else errors
  let errors := workflow.connections.foldl (fun errs conn =>
    let errs :=
      if (workflow.nodes.find? (fun n => n.id = conn.sourceNodeId)).isNone then
        errs ++ ["Connection references non-existent source node: " ++ conn.sourceNodeId]
      else errs
    if (workflow.nodes.find? (fun n => n.id = conn.targetNodeId)).isNone then
      errs ++ ["Connection references non-existent target node: " ++ conn.targetNodeId]
    else errs) errors
  { isValid := errors.length = 0, errors := errors }

/-- The mutable state of one `executeWorkflow` call: the workflow reference
held by the engine, the tick counter standing in for the wall clock, and the
`WorkflowExecution` record being built. -/
structure EngineState where
  workflow : Workflow
  clock : Nat
  execution : WorkflowExecution

/-- Embedding of `new Date()`: read the clock and advance it. -/
def tick (s : EngineState) : Nat × EngineState :=
  (s.clock, { s with clock := s.clock + 1 })

/-- The `for (const nodeId of executionOrder)` loop of
`WorkflowExecutionEngine.executeWorkflow`, one constructor per source
statement: skip missing or disabled nodes; build a fresh context with
resolved inputs and `startTime`; run the registered processor or the fallback
(`mock node`); on success mark the context completed; on failure mark it
failed and, under `stop` error handling, set the overall failure and `break`
— which in the source exits the loop before the
`execution.nodeExecutions.push(nodeContext)` that follows the try/catch, so
the failing context is not appended in that case. -/
def execLoop (procs : String → Option NodeProcessor) (mock : NodeConfig → NodeProcessor) :
    List String → EngineState → EngineState
  | [], s => s
  | nodeId :: rest, s =>
    match s.workflow.nodes.find? (fun n => n.id = nodeId) with
    | none => execLoop procs mock rest s
    | some node =>
      if node.enabled = false then execLoop procs mock rest s
      else
        let (t0, s) := tick s
        let nodeContext : NodeExecutionContext :=
          { nodeId := node.id
            workflowId := s.workflow.id
            executionId := s.execution.id
            inputData := getNodeInputData node s.workflow s.execution
            outputData := []
            status := ExecutionStatus.running
            startTime := some t0
            logs := [] }
        match ((procs nodeId).getD (mock node)) nodeContext with
        | Except.ok out =>
          let (t1, s) := tick s
          let nodeContext :=
            { nodeContext with
                outputData := out
                status := ExecutionStatus.completed
                endTime := some t1 }
          let s := { s with execution :=
            { s.execution with
                nodeExecutions := s.execution.nodeExecutions ++ [nodeContext] } }
          execLoop procs mock rest s
        | Except.error msg =>
          let (t1, s) := tick s
          let nodeContext :=
            { nodeContext with
                status := ExecutionStatus.failed
                error := some msg
                endTime := some t1 }
          if s.workflow.settings.errorHandling = ErrorHandling.stop then
            { s with execution :=
              { s.execution with
                  status := ExecutionStatus.failed
                  error := some ("Node " ++ node.name ++ " failed: " ++ msg) } }
          else
            let s := { s with execution :=
              { s.execution with
                  nodeExecutions := s.execution.nodeExecutions ++ [nodeContext] } }
            execLoop procs mock rest s

/-- Embedding of `WorkflowExecutionEngine.executeWorkflow`.  Parameters: the processor
registry and the fallback processor constructor (see `NodeProcessor`), the
workflow, the optional trigger payload, and the starting clock value
(`Date.now()` at entry).  Returns the finalized execution record together
with the workflow reference held by the engine at the end of the run (for
the frame property).  The body mirrors the source: build the initial
`running` record; inside the `try`, throw (modelled by the `if`) when the
workflow has no trigger nodes — caught by the `catch`, which stamps the
failure on the record; otherwise run the loop over `getExecutionOrder` and
afterwards promote a non-`failed` status to `completed`; finally stamp
`endTime` and return. -/
def executeWorkflow (procs : String → Option NodeProcessor)
    (mock : NodeConfig → NodeProcessor) (workflow : Workflow)
    (triggerData : Option NodeData) (clock0 : Nat) : WorkflowExecution × Workflow :=
  let execution : WorkflowExecution :=
    { id := "exec_" ++ toString clock0
      workflowId := workflow.id
      status := ExecutionStatus.running
      startTime := clock0
      triggerData := triggerData
      nodeExecutions := [] }
  let s : EngineState := { workflow := workflow, clock := clock0 + 1, execution := execution }
  let s :=
    if (workflow.nodes.filter (fun n => n.type = NodeType.trigger)).length = 0 then
      { s with execution :=
        { s.execution with
            status := ExecutionStatus.failed
            error := some "No trigger nodes found in workflow" } }
    else
      let executionOrder := getExecutionOrder s.workflow
      let s := execLoop procs mock executionOrder s
      if s.execution.status ≠ ExecutionStatus.failed then
        { s with execution := { s.execution with status := ExecutionStatus.completed } }
      else s
  let (tEnd, s) := tick s
  ({ s.execution with endTime := some tEnd }, s.workflow)

/-! ### The connection graph, as a relation

Used to state cycle/reachability hypotheses about a workflow; the engine
itself never builds this relation. -/

/-- The directed data-flow edge relation of a workflow: `x → y` when some
connection has source `x` and target `y`. -/
def isEdge (w : Workflow) (x y : String) : Prop :=
  ∃ c ∈ w.connections, c.sourceNodeId = x ∧ c.targetNodeId = y

/-- A cycle is reachable from `x`: some node `z` reachable from `x` (along
forward edges) lies on a nonempty edge cycle. -/
def reachesCycle (w : Workflow) (x : String) : Prop :=
  ∃ z, Relation.ReflTransGen (isEdge w) x z ∧ Relation.TransGen (isEdge w) z z

/-- Every id that `hasCycleF` can ever mark visited: the listed node ids (the
roots) and the connection target ids (the successors it walks to). -/
def cycNodeIds (w : Workflow) : List String :=
  w.nodes.map (fun n => n.id) ++ w.connections.map (fun c => c.targetNodeId)

/-- Number of markable ids not yet visited; the measure showing the fuel of
`hasCircularDependencies` is never exhausted. -/
def unvis (w : Workflow) (visited : List String) : Nat :=
  ((cycNodeIds w).filter (fun x => x ∉ visited)).length

/-! ### Concrete inputs for the evaluation, counterexample and witness
theorems -/

def tNode : NodeConfig := { id := "T", type := .trigger, name := "Trigger", enabled := true }
def aNode : NodeConfig := { id := "A", type := .action, name := "NodeA", enabled := true }
def bNode : NodeConfig := { id := "B", type := .action, name := "NodeB", enabled := true }

def cTA : NodeConnection :=
  { id := "c1", sourceNodeId := "T", targetNodeId := "A", sourceOutput := "out", targetInput := "tin" }
def cAB : NodeConnection :=
  { id := "c2", sourceNodeId := "A", targetNodeId := "B", sourceOutput := "out", targetInput := "bin" }
def cBA : NodeConnection :=
  { id := "c3", sourceNodeId := "B", targetNodeId := "A", sourceOutput := "o", targetInput := "i" }

/-- The `Trigger → A → B` workflow of the stop-semantics and topological
soundness claims, with `errorHandling = stop`. -/
def wfTAB : Workflow :=
  { id := "w1"
    name := "w1"
    version := "1"
    nodes := [tNode, aNode, bNode]
    connections := [cTA, cAB]
    settings := { errorHandling := .stop } }

/-- Registry for `wfTAB`: the trigger and `B` succeed, `A` always fails. -/
def procsTAB : String → Option NodeProcessor
  | "T" => some (fun _ => Except.ok [("fired", Value.bool true)])
  | "A" => some (fun _ => Except.error "boom")
  | "B" => some (fun _ => Except.ok [("done", Value.bool true)])
  | _ => none

/-- A deterministic stand-in for the fallback processor (never consulted by
the runs below: every node of their workflows has a registered processor). -/
def mockOk : NodeConfig → NodeProcessor := fun _ _ => Except.ok [("processed", Value.bool true)]

/-- Single enabled trigger whose processor always fails, `stop` policy. -/
def wfFailT : Workflow :=
  { id := "w2"
    name := "w2"
    version := "1"
    nodes := [tNode]
    connections := []
    settings := { errorHandling := .stop } }

def procsFailT : String → Option NodeProcessor
  | "T" => some (fun _ => Except.error "boom")
  | _ => none

/-- Workflow for the routing-collision counterexample: connection `A → B`
routes `A`'s output `y` into `B`'s input `x`, and the workflow variable `x`
is `1`. -/
def wfCollide : Workflow :=
  { id := "w3"
    name := "w3"
    version := "1"
    nodes := [aNode, bNode]
    connections := [{ id := "c", sourceNodeId := "A", targetNodeId := "B",
                      sourceOutput := "y", targetInput := "x" }]
    «variables» := some [("x", Value.num 1)]
    settings := { errorHandling := .stop } }

/-- Execution record in which `A` has completed with output `y = 2`. -/
def execCollide : WorkflowExecution :=
  { id := "e3"
    workflowId := "w3"
    status := .running
    startTime := 0
    nodeExecutions := [{ nodeId := "A", workflowId := "w3", executionId := "e3",
                         inputData := [], outputData := [("y", Value.num 2)],
                         status := .completed }] }

/-- Trigger-node workflow where the variable `x = 1` collides with the
trigger payload `x = 2`. -/
def wfVarX : Workflow :=
  { id := "w4"
    name := "w4"
    version := "1"
    nodes := [tNode]
    connections := []
    «variables» := some [("x", Value.num 1)]
    settings := { errorHandling := .stop } }

/-- Execution carrying the external trigger payload `x = 2`. -/
def execVarX : WorkflowExecution :=
  { id := "e4"
    workflowId := "w4"
    status := .running
    startTime := 0
    triggerData := some [("x", Value.num 2)]
    nodeExecutions := [] }

/-- Workflow with a cycle `A → B → A` reachable from the trigger `T`. -/
def wfCyc : Workflow :=
  { id := "wc"
    name := "wc"
    version := "1"
    nodes := [tNode, aNode, bNode]
    connections := [cTA, cAB, cBA]
    settings := { errorHandling := .stop } }

/-- Workflow with no trigger node. -/
def wfNoTrig : Workflow :=
  { id := "wn"
    name := "wn"
    version := "1"
    nodes := [aNode]
    connections := []
    settings := { errorHandling := .stop } }

/-- Single succeeding trigger, used to exhibit a nonempty `nodeExecutions`. -/
def wfOk : Workflow :=
  { id := "wo"
    name := "wo"
    version := "1"
    nodes := [tNode]
    connections := []
    settings := { errorHandling := .stop } }

def procsOk : String → Option NodeProcessor
  | "T" => some (fun _ => Except.ok [("fired", Value.bool true)])
  | _ => none

/-- The context produced by running `wfOk` (starting clock 0). -/
def ctxOkT : NodeExecutionContext :=
  { nodeId := "T"
    workflowId := "wo"
    executionId := "exec_0"
    inputData := []
    outputData := [("fired", Value.bool true)]
    status := .completed
    startTime := some 1
    endTime := some 2 }

/-! ### Association-list lemmas for the input router -/

lemma lookupKey_cons (p : String × Value) (rest : NodeData) (k : String) :
    lookupKey (p :: rest) k = if p.1 = k then some p.2 else lookupKey rest k := by
  by_cases h : p.1 = k
  · simp [lookupKey, List.find?, h]
  · simp [lookupKey, List.find?, h]

lemma lookupKey_setKey_self (d : NodeData) (k : String) (v : Value) :
    lookupKey (setKey d k v) k = some v := by
  induction d with
  | nil => simp [setKey, lookupKey_cons]
  | cons p rest ih =>
    by_cases h : p.1 = k
    · simp [setKey, h, lookupKey_cons]
    · simp [setKey, h, lookupKey_cons, ih]

lemma lookupKey_setKey_ne (d : NodeData) (k k' : String) (v : Value) (h : k' ≠ k) :
    lookupKey (setKey d k v) k' = lookupKey d k' := by
  induction d with
  | nil => simp [setKey, lookupKey_cons, Ne.symm h]
  | cons p rest ih =>
    by_cases hp : p.1 = k
    · simp [setKey, hp, lookupKey_cons, Ne.symm h]
    · simp [setKey, hp, lookupKey_cons, ih]

lemma lookupKey_objAssign_of_not_mem (d src : NodeData) (k : String)
    (h : k ∉ src.map Prod.fst) : lookupKey (objAssign d src) k = lookupKey d k := by
  induction src generalizing d with
  | nil => rfl
  | cons p rest ih =>
    have hk : k ∉ rest.map Prod.fst := fun hm => h (List.mem_cons_of_mem _ hm)
    have hne : k ≠ p.1 := fun he => h (by simp [he])
    show lookupKey (objAssign (setKey d p.1 p.2) rest) k = lookupKey d k
    rw [ih (setKey d p.1 p.2) hk, lookupKey_setKey_ne d p.1 k p.2 hne]

lemma lookupKey_objAssign_of_lookup (d src : NodeData) (k : String) (v : Value)
    (hnd : (src.map Prod.fst).Nodup) (h : lookupKey src k = some v) :
    lookupKey (objAssign d src) k = some v := by
  induction src generalizing d with
  | nil => simp [lookupKey, List.find?] at h
  | cons p rest ih =>
    show lookupKey (objAssign (setKey d p.1 p.2) rest) k = some v
    by_cases hk : p.1 = k
    · have hv : v = p.2 := by
        simp only [lookupKey, List.find?, decide_eq_true_eq, hk, decide_True] at h
        exact (Option.some.injEq _ _ ▸ h).symm
      have hrest : k ∉ rest.map Prod.fst := by
        have := (List.nodup_cons.mp hnd).1
        simpa [hk] using this
      rw [lookupKey_objAssign_of_not_mem _ rest k hrest, hk,
        lookupKey_setKey_self, hv]
    · have h' : lookupKey rest k = some v := by
        simp only [lookupKey, List.find?] at h ⊢
        rw [show (decide (p.1 = k)) = false from decide_eq_false hk] at h
        exact h
      exact ih (setKey d p.1 p.2) (List.nodup_cons.mp hnd).2 h'

/-! ### Claim C3 -/

/-- Claim C3, as frozen, evaluated at a concrete collision: node `B` (not a
trigger) has the upstream output `y = 2` of completed node `A` routed onto
input key `x` by a connection while the workflow variable `x` is `1`.  The
claim says the resolved input binds `x` to the upstream value `2`; the code
binds it to the variable value `1`, because `Object.assign(inputData,
workflow.variables)` runs after the connection loop and overwrites it. -/
theorem c3_upstream_shadow_counterexample :
    lookupKey (getNodeInputData bNode wfCollide execCollide) "x" = some (Value.num 1) ∧
    lookupKey (getNodeInputData bNode wfCollide execCollide) "x" ≠ some (Value.num 2) := by
  refine ⟨rfl, ?_⟩
  rw [show lookupKey (getNodeInputData bNode wfCollide execCollide) "x"
        = some (Value.num 1) from rfl]
  simp

/-- Claim C3, amended: for a non-trigger node, a key defined by the
workflow-level variables resolves to the variable's value — workflow
variables shadow connection-routed upstream outputs on collision (not the
other way around). -/
theorem c3_variables_shadow_upstream (node : NodeConfig) (workflow : Workflow)
    (execution : WorkflowExecution) (vars : NodeData) (k : String) (v : Value)
    (hnode : node.type ≠ NodeType.trigger)
    (hvars : workflow.«variables» = some vars)
    (hnd : (vars.map Prod.fst).Nodup)
    (hv : lookupKey vars k = some v) :
    lookupKey (getNodeInputData node workflow execution) k = some v := by
  unfold getNodeInputData
  rw [hvars]
  simp only [if_neg hnode]
  exact lookupKey_objAssign_of_lookup _ vars k v hnd hv

/-- Witness for `c3_variables_shadow_upstream` at the collision input:
the resolved `x` is the variable value `1`. -/
theorem c3_variables_shadow_upstream_witness :
    lookupKey (getNodeInputData bNode wfCollide execCollide) "x" = some (Value.num 1) :=
  c3_variables_shadow_upstream bNode wfCollide execCollide [("x", Value.num 1)] "x"
    (Value.num 1) (by simp [bNode]) rfl (by simp) rfl

/-! ### Claim C8 -/

/-- Claim C8: for a trigger node, a key defined in the run's external trigger
payload resolves to the payload's value, even when a workflow variable
defines the same key — `Object.assign(inputData, execution.triggerData)` is
the last merge for trigger nodes. -/
theorem c8_trigger_data_overrides (node : NodeConfig) (workflow : Workflow)
    (execution : WorkflowExecution) (vars td : NodeData) (k : String) (v1 v2 : Value)
    (hnode : node.type = NodeType.trigger)
    (hvars : workflow.«variables» = some vars)
    (_hv1 : lookupKey vars k = some v1)
    (htd : execution.triggerData = some td)
    (hnd : (td.map Prod.fst).Nodup)
    (hv2 : lookupKey td k = some v2) :
    lookupKey (getNodeInputData node workflow execution) k = some v2 := by
  unfold getNodeInputData
  rw [hvars]
  simp only [if_pos hnode, htd]
  exact lookupKey_objAssign_of_lookup _ td k v2 hnd hv2

/-- Witness for `c8_trigger_data_overrides`: variable `x = 1`, trigger
payload `x = 2`, and the trigger node's resolved input for `x` is `2`. -/
theorem c8_trigger_data_overrides_witness :
    lookupKey (getNodeInputData tNode wfVarX execVarX) "x" = some (Value.num 2) :=
  c8_trigger_data_overrides tNode wfVarX execVarX [("x", Value.num 1)]
    [("x", Value.num 2)] "x" (Value.num 1) (Value.num 2) rfl rfl rfl rfl (by simp) rfl

/-! ### Claims C1, C4, C2: evaluations at the failing inputs -/

/-- Claim C4 at the failing input `Trigger → A → B`: `getExecutionOrder`
starts from the trigger nodes and recurses only into the *sources* of
connections targeting the visited node, so it never walks forward along
connections.  The computed order is `["T"]`: `A` and `B`, both reachable
from the trigger, never appear, so no connection `(A→B)` between reachable
nodes is ordered at all — contradicting the claimed topological soundness,
which the rest of the engine design clearly intends. -/
theorem c4_order_only_triggers_eval : getExecutionOrder wfTAB = ["T"] := rfl

/-- Claim C1 at its own input (`Trigger → A → B`, `errorHandling = stop`,
`A`'s processor always failing, trigger's and `B`'s succeeding): because the
execution order is only `["T"]` (see `c4_order_only_triggers_eval`), `A` is
never attempted, nothing fails, and the run returns `completed` with exactly
one node context (the trigger's) — not the claimed two contexts and `failed`
status. -/
theorem c1_stop_semantics_eval :
    (executeWorkflow procsTAB mockOk wfTAB none 0).1.status = ExecutionStatus.completed ∧
    ((executeWorkflow procsTAB mockOk wfTAB none 0).1.nodeExecutions.map
      (fun c => (c.nodeId, c.status))) = [("T", ExecutionStatus.completed)] ∧
    (executeWorkflow procsTAB mockOk wfTAB none 0).1.error = none :=
  ⟨rfl, rfl, rfl⟩

/-- Claim C2 at the failing input: one enabled trigger whose processor
fails, under `errorHandling = stop`.  The returned `error` message
`"Node Trigger failed: boom"` carries the processor's own error, so the
context was constructed and its processor invoked; yet `nodeExecutions` is
empty — the `break` in the `stop` branch exits the loop before the
`execution.nodeExecutions.push(nodeContext)` that follows the try/catch, so
the attempted context is dropped, contradicting the claimed append-always
invariant. -/
theorem c2_failed_context_dropped_eval :
    (executeWorkflow procsFailT mockOk wfFailT none 0).1.nodeExecutions = [] ∧
    (executeWorkflow procsFailT mockOk wfFailT none 0).1.status = ExecutionStatus.failed ∧
    (executeWorkflow procsFailT mockOk wfFailT none 0).1.error =
      some "Node Trigger failed: boom" :=
  ⟨rfl, rfl, rfl⟩

/-! ### Claim C6 -/

/-- Claim C6: a workflow with zero trigger nodes is rejected before any node
runs — the returned execution (no exception escapes) is `failed`, carries
the error message, and has an empty `nodeExecutions`. -/
theorem c6_no_trigger_rejected (procs : String → Option NodeProcessor)
    (mock : NodeConfig → NodeProcessor) (workflow : Workflow)
    (triggerData : Option NodeData) (clock0 : Nat)
    (h : workflow.nodes.filter (fun n => n.type = NodeType.trigger) = []) :
    (executeWorkflow procs mock workflow triggerData clock0).1.status = ExecutionStatus.failed ∧
    (executeWorkflow procs mock workflow triggerData clock0).1.error =
      some "No trigger nodes found in workflow" ∧
    (executeWorkflow procs mock workflow triggerData clock0).1.nodeExecutions = [] := by
  unfold executeWorkflow
  rw [h]
  exact ⟨rfl, rfl, rfl⟩

/-- Witness for `c6_no_trigger_rejected` on the trigger-less `wfNoTrig`. -/
theorem c6_no_trigger_rejected_witness :
    (executeWorkflow procsOk mockOk wfNoTrig none 0).1.status = ExecutionStatus.failed ∧
    (executeWorkflow procsOk mockOk wfNoTrig none 0).1.error =
      some "No trigger nodes found in workflow" ∧
    (executeWorkflow procsOk mockOk wfNoTrig none 0).1.nodeExecutions = [] :=
  c6_no_trigger_rejected procsOk mockOk wfNoTrig none 0 rfl

/-! ### Claim C9: the engine never mutates the workflow -/

lemma execLoop_workflow_eq (procs : String → Option NodeProcessor)
    (mock : NodeConfig → NodeProcessor) :
    ∀ (order : List String) (s : EngineState),
      (execLoop procs mock order s).workflow = s.workflow := by
  intro order
  induction order with
  | nil => intro s; rfl
  | cons nodeId rest ih =>
    intro s
    show (execLoop procs mock (nodeId :: rest) s).workflow = s.workflow
    unfold execLoop
    cases hfind : s.workflow.nodes.find? (fun n => n.id = nodeId) with
    | none => exact ih s
    | some node =>
      by_cases hen : node.enabled = false
      · simp only [hfind, if_pos hen]
        exact ih s
      · simp only [hfind, if_neg hen]
        cases hp : ((procs nodeId).getD (mock node))
            { nodeId := node.id
              workflowId := s.workflow.id
              executionId := s.execution.id
              inputData := getNodeInputData node s.workflow s.execution
              outputData := []
              status := ExecutionStatus.running
              startTime := some s.clock
              logs := [] } with
        | ok out => simp only [tick, hp]; exact ih _
        | error msg =>
          simp only [tick, hp]
          by_cases hstop : s.workflow.settings.errorHandling = ErrorHandling.stop
          · simp only [if_pos hstop]
          · simp only [if_neg hstop]; exact ih _

/-- Claim C9: `executeWorkflow` reads the workflow but never writes it — the
workflow reference the engine holds at the end of the run is the input
workflow, unchanged in nodes, connections, variables and settings. -/
theorem c9_workflow_unchanged (procs : String → Option NodeProcessor)
    (mock : NodeConfig → NodeProcessor) (workflow : Workflow)
    (triggerData : Option NodeData) (clock0 : Nat) :
    (executeWorkflow procs mock workflow triggerData clock0).2 = workflow := by
  unfold executeWorkflow
  by_cases htrig :
      (workflow.nodes.filter (fun n => n.type = NodeType.trigger)).length = 0
  · simp only [if_pos htrig, tick]
  · simp only [if_neg htrig, tick]
    split
    · exact execLoop_workflow_eq procs mock _ _
    · exact execLoop_workflow_eq procs mock _ _

/-! ### Claim C10: only final, fully-timestamped contexts are returned -/

/-- A context is final: completed or failed, with both timestamps set. -/
def ctxFinal (c : NodeExecutionContext) : Prop :=
  (c.status = ExecutionStatus.completed ∨ c.status = ExecutionStatus.failed) ∧
  c.startTime.isSome ∧ c.endTime.isSome

lemma execLoop_contexts_final (procs : String → Option NodeProcessor)
    (mock : NodeConfig → NodeProcessor) :
    ∀ (order : List String) (s : EngineState),
      (∀ c ∈ s.execution.nodeExecutions, ctxFinal c) →
      ∀ c ∈ (execLoop procs mock order s).execution.nodeExecutions, ctxFinal c := by
  intro order
  induction order with
  | nil => intro s hs; exact hs
  | cons nodeId rest ih =>
    intro s hs
    unfold execLoop
    cases hfind : s.workflow.nodes.find? (fun n => n.id = nodeId) with
    | none => exact ih s hs
    | some node =>
      by_cases hen : node.enabled = false
      · simp only [hfind, if_pos hen]
        exact ih s hs
      · simp only [hfind, if_neg hen]
        cases hp : ((procs nodeId).getD (mock node))
            { nodeId := node.id
              workflowId := s.workflow.id
              executionId := s.execution.id
              inputData := getNodeInputData node s.workflow s.execution
              outputData := []
              status := ExecutionStatus.running
              startTime := some s.clock
              logs := [] } with
        | ok out =>
          simp only [tick, hp]
          refine ih _ ?_
          intro c hc
          rcases List.mem_append.mp hc with hc | hc
          · exact hs c hc
          · rcases List.mem_singleton.mp hc with rfl
            exact ⟨Or.inl rfl, rfl, rfl⟩
        | error msg =>
          simp only [tick, hp]
          by_cases hstop : s.workflow.settings.errorHandling = ErrorHandling.stop
          · simp only [if_pos hstop]
            exact hs
          · simp only [if_neg hstop]
            refine ih _ ?_
            intro c hc
            rcases List.mem_append.mp hc with hc | hc
            · exact hs c hc
            · rcases List.mem_singleton.mp hc with rfl
              exact ⟨Or.inr rfl, rfl, rfl⟩

/-- Claim C10: every context in the `nodeExecutions` of a returned execution
has final status `completed` or `failed` (never `pending`, `running` or
`skipped`), and both its `startTime` and `endTime` are set. -/
theorem c10_contexts_final (procs : String → Option NodeProcessor)
    (mock : NodeConfig → NodeProcessor) (workflow : Workflow)
    (triggerData : Option NodeData) (clock0 : Nat)
    (c : NodeExecutionContext)
    (hc : c ∈ (executeWorkflow procs mock workflow triggerData clock0).1.nodeExecutions) :
    ctxFinal c := by
  revert hc
  unfold executeWorkflow
  by_cases htrig :
      (workflow.nodes.filter (fun n => n.type = NodeType.trigger)).length = 0
  · simp only [if_pos htrig, tick]
    intro hc
    exact absurd hc (List.not_mem_nil c)
  · simp only [if_neg htrig, tick]
    split
    · intro hc
      exact execLoop_contexts_final procs mock _ _
        (fun c hmem => absurd hmem (List.not_mem_nil c)) c hc
    · intro hc
      exact execLoop_contexts_final procs mock _ _
        (fun c hmem => absurd hmem (List.not_mem_nil c)) c hc

/-- Witness for `c10_contexts_final`: the run of `wfOk` returns exactly the
context `ctxOkT`, which is `completed` with both timestamps set. -/
theorem c10_contexts_final_witness : ctxFinal ctxOkT :=
  c10_contexts_final procsOk mockOk wfOk none 0 ctxOkT
    (by rw [show (executeWorkflow procsOk mockOk wfOk none 0).1.nodeExecutions
          = [ctxOkT] from rfl]; exact List.mem_singleton.mpr rfl)

/-! ### Claim C7: the scheduler is total and never revisits a node -/

/-- How one `visit` call extends a `(visited, order)` state: `visited` only
grows, and `order` gains a duplicate-free suffix of ids that were unvisited
before and are visited after. -/
def VisitExt (st st' : List String × List String) : Prop :=
  (∀ x ∈ st.1, x ∈ st'.1) ∧
  ∃ l, st'.2 = st.2 ++ l ∧ l.Nodup ∧ ∀ x ∈ l, x ∉ st.1 ∧ x ∈ st'.1

lemma visitExt_refl (st : List String × List String) : VisitExt st st :=
  ⟨fun _ h => h, [], by simp, List.nodup_nil, by simp⟩

lemma visitExt_trans {a b c : List String × List String}
    (hab : VisitExt a b) (hbc : VisitExt b c) : VisitExt a c := by
  obtain ⟨hv1, l1, he1, hn1, hm1⟩ := hab
  obtain ⟨hv2, l2, he2, hn2, hm2⟩ := hbc
  refine ⟨fun x hx => hv2 x (hv1 x hx), l1 ++ l2, by rw [he2, he1, List.append_assoc], ?_, ?_⟩
  · rw [List.nodup_append]
    exact ⟨hn1, hn2, fun x hx1 hx2 => (hm2 x hx2).1 ((hm1 x hx1).2)⟩
  · intro x hx
    rcases List.mem_append.mp hx with hx | hx
    · exact ⟨(hm1 x hx).1, hv2 x (hm1 x hx).2⟩
    · exact ⟨fun hxa => (hm2 x hx).1 (hv1 x hxa), (hm2 x hx).2⟩

lemma foldl_visitExt {α : Type} (f : List String × List String → α → List String × List String)
    (hf : ∀ st a, VisitExt st (f st a)) :
    ∀ (l : List α) (st : List String × List String), VisitExt st (l.foldl f st) := by
  intro l
  induction l with
  | nil => intro st; exact visitExt_refl st
  | cons a rest ih => intro st; exact visitExt_trans (hf st a) (ih (f st a))

lemma visitF_ext (conns : List NodeConnection) :
    ∀ (fuel : Nat) (nodeId : String) (st : List String × List String),
      VisitExt st (visitF conns fuel nodeId st) := by
  intro fuel
  induction fuel with
  | zero => intro nodeId st; exact visitExt_refl st
  | succ fuel ih =>
    intro nodeId st
    unfold visitF
    by_cases hmem : nodeId ∈ st.1
    · simp only [if_pos hmem]
      exact visitExt_refl st
    · simp only [if_neg hmem]
      have hfold := foldl_visitExt (fun s d => visitF conns fuel d s)
        (fun s d => ih d s)
        ((conns.filter (fun c => c.targetNodeId = nodeId)).map (fun c => c.sourceNodeId))
        (nodeId :: st.1, st.2)
      obtain ⟨hv, l, he, hn, hm⟩ := hfold
      refine ⟨fun x hx => hv x (List.mem_cons_of_mem _ hx), l ++ [nodeId], ?_, ?_, ?_⟩
      · simp only [he]
        rw [List.append_assoc]
      · rw [List.nodup_append]
        refine ⟨hn, List.nodup_singleton _, ?_⟩
        intro x hx1 hx2
        rcases List.mem_singleton.mp hx2 with rfl
        exact (hm x hx1).1 (List.mem_cons_self _ _)
      · intro x hx
        rcases List.mem_append.mp hx with hx | hx
        · exact ⟨fun hxa => (hm x hx).1 (List.mem_cons_of_mem _ hxa), (hm x hx).2⟩
        · rcases List.mem_singleton.mp hx with rfl
          exact ⟨hmem, hv x (List.mem_cons_self _ _)⟩

/-- Claim C7: `getExecutionOrder` is a total function (it is defined for
every workflow, cyclic, disconnected or dangling connections included — in
this development nontermination or a crash would be a failure to define it),
and its visited-set discipline means every node id occurs at most once in
the returned order: a cycle is silently truncated, never looped over. -/
theorem c7_execution_order_nodup (workflow : Workflow) :
    (getExecutionOrder workflow).Nodup := by
  unfold getExecutionOrder
  have h := foldl_visitExt
    (fun st n => visitF workflow.connections
      (workflow.nodes.length + workflow.connections.length + 1) n.id st)
    (fun st n => visitF_ext workflow.connections _ n.id st)
    (workflow.nodes.filter (fun n => n.type = NodeType.trigger)) ([], [])
  obtain ⟨-, l, he, hn, -⟩ := h
  simpa [he] using hn

/-! ### Claim C5: the validator reports every reachable cycle

Soundness of the three-colour DFS of `hasCircularDependencies`: whenever it
answers `false`, no node of the workflow can reach a cycle; hence any
workflow with a cycle reachable from a (listed) trigger is reported. -/

lemma foldl_shortcircuit {α β : Type} (g : Bool × β → α → Bool × β)
    (hg : ∀ acc a, acc.1 = true → g acc a = acc) :
    ∀ (l : List α) (acc : Bool × β), acc.1 = true → l.foldl g acc = acc := by
  intro l
  induction l with
  | nil => intro acc _; rfl
  | cons a rest ih =>
    intro acc hacc
    simp only [List.foldl_cons, hg acc a hacc]
    exact ih acc hacc

lemma filter_not_mem_mono (l : List String) (v v' : List String)
    (h : ∀ x ∈ v, x ∈ v') :
    (l.filter (fun x => x ∉ v')).length ≤ (l.filter (fun x => x ∉ v)).length := by
  induction l with
  | nil => simp
  | cons a rest ih =>
    by_cases hav : a ∈ v
    · have hav' : a ∈ v' := h a hav
      simp only [List.filter_cons, hav, hav', not_true_eq_false,
        decide_False, Bool.false_eq_true, if_false]
      exact ih
    · by_cases hav' : a ∈ v'
      · simp only [List.filter_cons, hav, hav', not_true_eq_false,
          not_false_eq_true, decide_False, decide_True, Bool.false_eq_true,
          if_false, if_true, List.length_cons]
        exact Nat.le_succ_of_le ih
      · simp only [List.filter_cons, hav, hav',
          not_false_eq_true, decide_True, if_true, List.length_cons]
        exact Nat.succ_le_succ ih

lemma filter_not_mem_strict (l : List String) (v : List String) (n : String)
    (hn : n ∈ l) (hnv : n ∉ v) :
    (l.filter (fun x => x ∉ (n :: v))).length < (l.filter (fun x => x ∉ v)).length := by
  induction l with
  | nil => cases hn
  | cons a rest ih =>
    by_cases han : a = n
    · subst han
      have h1 : a ∈ a :: v := List.mem_cons_self _ _
      simp only [List.filter_cons, h1, hnv, not_true_eq_false, not_false_eq_true,
        decide_False, decide_True, Bool.false_eq_true, if_false, if_true, List.length_cons]
      have := filter_not_mem_mono rest v (a :: v) (fun x hx => List.mem_cons_of_mem _ hx)
      omega
    · have hn' : n ∈ rest := by
        rcases List.mem_cons.mp hn with h | h
        · exact absurd h.symm han
        · exact h
      by_cases hav : a ∈ v
      · have hav' : a ∈ n :: v := List.mem_cons_of_mem _ hav
        simp only [List.filter_cons, hav, hav', not_true_eq_false,
          decide_False, Bool.false_eq_true, if_false]
        exact ih hn'
      · have hav' : a ∉ n :: v := by
          intro hmem
          rcases List.mem_cons.mp hmem with h | h
          · exact han h
          · exact hav h
        simp only [List.filter_cons, hav, hav',
          not_false_eq_true, decide_True, if_true, List.length_cons]
        exact Nat.succ_lt_succ (ih hn')

lemma unvis_mono (w : Workflow) {v v' : List String} (h : ∀ x ∈ v, x ∈ v') :
    unvis w v' ≤ unvis w v :=
  filter_not_mem_mono (cycNodeIds w) v v' h

lemma unvis_strict (w : Workflow) {v : List String} {n : String}
    (hn : n ∈ cycNodeIds w) (hnv : n ∉ v) : unvis w (n :: v) < unvis w v :=
  filter_not_mem_strict (cycNodeIds w) v n hn hnv

lemma unvis_lt_fuel (w : Workflow) (v : List String) :
    unvis w v < w.nodes.length + w.connections.length + 1 := by
  have h1 : unvis w v ≤ (cycNodeIds w).length := List.length_filter_le _ _
  have h2 : (cycNodeIds w).length = w.nodes.length + w.connections.length := by
    simp [cycNodeIds]
  omega

lemma deps_subset_cycNodeIds (w : Workflow) (nodeId : String) :
    ∀ d ∈ ((w.connections.filter (fun c => c.sourceNodeId = nodeId)).map
      (fun c => c.targetNodeId)), d ∈ cycNodeIds w := by
  intro d hd
  rcases List.mem_map.mp hd with ⟨c, hc, rfl⟩
  exact List.mem_append_right _ (List.mem_map_of_mem _ (List.mem_of_mem_filter hc))

lemma isEdge_iff_mem_deps (w : Workflow) (x y : String) :
    isEdge w x y ↔ y ∈ ((w.connections.filter (fun c => c.sourceNodeId = x)).map
      (fun c => c.targetNodeId)) := by
  constructor
  · rintro ⟨c, hc, hs, ht⟩
    exact List.mem_map.mpr ⟨c, List.mem_filter.mpr ⟨hc, by simp [hs]⟩, ht⟩
  · intro hy
    rcases List.mem_map.mp hy with ⟨c, hc, rfl⟩
    rcases List.mem_filter.mp hc with ⟨hmem, hsrc⟩
    exact ⟨c, hmem, by simpa using hsrc, rfl⟩

lemma no_cycle_step (w : Workflow) (x : String)
    (h : ∀ y, isEdge w x y → ¬ reachesCycle w y) : ¬ reachesCycle w x := by
  rintro ⟨z, hxz, hcyc⟩
  rcases Relation.ReflTransGen.cases_head hxz with rfl | ⟨y, hxy, hyz⟩
  · rcases Relation.TransGen.head'_iff.mp hcyc with ⟨y, hxy, hyx⟩
    exact h y hxy ⟨x, hyx, hcyc⟩
  · exact h y hxy ⟨z, hyz, hcyc⟩

/-- Soundness of the per-dependency short-circuiting loop of `hasCycle`,
assuming soundness of the recursive calls at the current fuel (`ih`).
`stack1` is the recursion stack in force for the whole loop. -/
lemma hasCycleFold_sound (w : Workflow) (fuel : Nat)
    (ih : ∀ (nodeId : String) (visited stack : List String),
      nodeId ∈ cycNodeIds w → unvis w visited < fuel →
      (∀ b ∈ visited, b ∉ stack → ¬ reachesCycle w b) →
      (hasCycleF w.connections fuel nodeId visited stack).1 = false →
      (∀ x ∈ visited, x ∈ (hasCycleF w.connections fuel nodeId visited stack).2) ∧
      nodeId ∈ (hasCycleF w.connections fuel nodeId visited stack).2 ∧
      (∀ b ∈ (hasCycleF w.connections fuel nodeId visited stack).2,
        b ∉ stack → ¬ reachesCycle w b))
    (stack1 : List String) :
    ∀ (deps : List String) (visited : List String),
      (∀ d ∈ deps, d ∈ cycNodeIds w) →
      unvis w visited < fuel →
      (∀ b ∈ visited, b ∉ stack1 → ¬ reachesCycle w b) →
      (deps.foldl (fun acc d => if acc.1 then acc
        else hasCycleF w.connections fuel d acc.2 stack1) (false, visited)).1 = false →
      (∀ x ∈ visited, x ∈ (deps.foldl (fun acc d => if acc.1 then acc
        else hasCycleF w.connections fuel d acc.2 stack1) (false, visited)).2) ∧
      (∀ b ∈ (deps.foldl (fun acc d => if acc.1 then acc
        else hasCycleF w.connections fuel d acc.2 stack1) (false, visited)).2,
        b ∉ stack1 → ¬ reachesCycle w b) ∧
      (∀ d ∈ deps, d ∈ (deps.foldl (fun acc d => if acc.1 then acc
        else hasCycleF w.connections fuel d acc.2 stack1) (false, visited)).2 ∧
        d ∉ stack1) := by
  intro deps
  induction deps with
  | nil =>
    intro visited _ _ hinv hfalse
    exact ⟨fun x hx => hx, hinv, fun d hd => absurd hd (List.not_mem_nil d)⟩
  | cons d rest ihl =>
    intro visited hdeps hfuel hinv hfalse
    have hstep : (List.foldl (fun acc d => if acc.1 then acc
        else hasCycleF w.connections fuel d acc.2 stack1) (false, visited)) (d :: rest)
        = List.foldl (fun acc d => if acc.1 then acc
        else hasCycleF w.connections fuel d acc.2 stack1)
          (hasCycleF w.connections fuel d visited stack1) rest := by
      simp only [List.foldl_cons, Bool.false_eq_true, if_false]
    rw [hstep] at hfalse ⊢
    have hr1flag : (hasCycleF w.connections fuel d visited stack1).1 = false := by
      by_contra hflag
      have htrue : (hasCycleF w.connections fuel d visited stack1).1 = true := by
        cases hb : (hasCycleF w.connections fuel d visited stack1).1
        · exact absurd hb hflag
        · rfl
      have heta : hasCycleF w.connections fuel d visited stack1
          = (true, (hasCycleF w.connections fuel d visited stack1).2) := by
        rw [← htrue]
      rw [heta, foldl_shortcircuit _ (fun acc a hacc => if_pos hacc) rest _ rfl] at hfalse
      exact absurd hfalse (by simp)
    obtain ⟨f, rfl⟩ : ∃ f, fuel = f + 1 := ⟨fuel - 1, by omega⟩
    have hdstack : d ∉ stack1 := by
      intro hds
      have : (hasCycleF w.connections (f + 1) d visited stack1).1 = true := by
        simp only [hasCycleF, if_pos hds]
      rw [this] at hr1flag
      exact absurd hr1flag (by simp)
    obtain ⟨hv1, hd1, hinv1⟩ := ih d visited stack1 (hdeps d (List.mem_cons_self _ _))
      hfuel hinv hr1flag
    have heta1 : hasCycleF w.connections (f + 1) d visited stack1
        = (false, (hasCycleF w.connections (f + 1) d visited stack1).2) := by
      rw [← hr1flag]
    rw [heta1] at hfalse ⊢
    obtain ⟨hsub, hinvF, hdF⟩ := ihl (hasCycleF w.connections (f + 1) d visited stack1).2
      (fun x hx => hdeps x (List.mem_cons_of_mem _ hx))
      (Nat.lt_of_le_of_lt (unvis_mono w hv1) hfuel)
      hinv1 hfalse
    refine ⟨fun x hx => hsub x (hv1 x hx), hinvF, ?_⟩
    intro d' hd'
    rcases List.mem_cons.mp hd' with rfl | hd'
    · exact ⟨hsub d' hd1, hdstack⟩
    · exact hdF d' hd'

/-- Soundness of `hasCycle`: a `false` answer means the visited set (old and
new) contains no node from which a cycle is reachable, provided it already
had that property off the recursion stack at entry and the fuel dominates
the number of unvisited markable ids. -/
lemma hasCycleF_sound (w : Workflow) :
    ∀ (fuel : Nat) (nodeId : String) (visited stack : List String),
      nodeId ∈ cycNodeIds w →
      unvis w visited < fuel →
      (∀ b ∈ visited, b ∉ stack → ¬ reachesCycle w b) →
      (hasCycleF w.connections fuel nodeId visited stack).1 = false →
      (∀ x ∈ visited, x ∈ (hasCycleF w.connections fuel nodeId visited stack).2) ∧
      nodeId ∈ (hasCycleF w.connections fuel nodeId visited stack).2 ∧
      (∀ b ∈ (hasCycleF w.connections fuel nodeId visited stack).2,
        b ∉ stack → ¬ reachesCycle w b) := by
  intro fuel
  induction fuel with
  | zero =>
    intro nodeId visited stack _ hfuel _ _
    exact absurd hfuel (Nat.not_lt_zero _)
  | succ fuel ih =>
    intro nodeId visited stack hmem hfuel hinv hfalse
    by_cases h1 : nodeId ∈ stack
    · rw [show hasCycleF w.connections (fuel + 1) nodeId visited stack = (true, visited) by
        simp only [hasCycleF, if_pos h1]] at hfalse
      exact absurd hfalse (by simp)
    · by_cases h2 : nodeId ∈ visited
      · rw [show hasCycleF w.connections (fuel + 1) nodeId visited stack = (false, visited) by
          simp only [hasCycleF, if_neg h1, if_pos h2]]
        exact ⟨fun x hx => hx, h2, hinv⟩
      · have hshape : hasCycleF w.connections (fuel + 1) nodeId visited stack
            = ((w.connections.filter (fun c => c.sourceNodeId = nodeId)).map
                (fun c => c.targetNodeId)).foldl
              (fun acc d => if acc.1 then acc
                else hasCycleF w.connections fuel d acc.2 (nodeId :: stack))
              (false, nodeId :: visited) := by
          simp only [hasCycleF, if_neg h1, if_neg h2]
        rw [hshape] at hfalse ⊢
        have hfuel' : unvis w (nodeId :: visited) < fuel := by
          have := unvis_strict w hmem h2
          omega
        have hinv' : ∀ b ∈ nodeId :: visited, b ∉ nodeId :: stack → ¬ reachesCycle w b := by
          intro b hb hbs
          rcases List.mem_cons.mp hb with rfl | hb
          · exact absurd (List.mem_cons_self _ _) hbs
          · exact hinv b hb (fun hbst => hbs (List.mem_cons_of_mem _ hbst))
        obtain ⟨hsub, hinvF, hdF⟩ := hasCycleFold_sound w fuel ih (nodeId :: stack)
          ((w.connections.filter (fun c => c.sourceNodeId = nodeId)).map
            (fun c => c.targetNodeId))
          (nodeId :: visited) (deps_subset_cycNodeIds w nodeId) hfuel' hinv' hfalse
        have hnocyc : ¬ reachesCycle w nodeId := by
          apply no_cycle_step w nodeId
          intro y hy
          have hyd := (isEdge_iff_mem_deps w nodeId y).mp hy
          obtain ⟨hyF, hyst⟩ := hdF y hyd
          exact hinvF y hyF hyst
        refine ⟨fun x hx => hsub x (List.mem_cons_of_mem _ hx),
          hsub nodeId (List.mem_cons_self _ _), ?_⟩
        intro b hb hbs
        by_cases hbn : b = nodeId
        · exact hbn ▸ hnocyc
        · exact hinvF b hb (fun hbst => by
            rcases List.mem_cons.mp hbst with h | h
            · exact hbn h
            · exact hbs h)

/-- If `hasCircularDependencies` answers `false`, no listed node reaches a
cycle. -/
lemma hasCircularDependencies_false_no_cycle (w : Workflow)
    (hb : hasCircularDependencies w = false) :
    ∀ nd ∈ w.nodes, ¬ reachesCycle w nd.id := by
  have haux : ∀ (l : List NodeConfig) (visited : List String),
      (∀ n ∈ l, n.id ∈ cycNodeIds w) →
      (∀ x ∈ visited, ¬ reachesCycle w x) →
      (l.foldl (fun acc n => if acc.1 then acc
        else hasCycleF w.connections (w.nodes.length + w.connections.length + 1)
          n.id acc.2 []) (false, visited)).1 = false →
      ∀ n ∈ l, ¬ reachesCycle w n.id := by
    intro l
    induction l with
    | nil => intro visited _ _ _ n hn; exact absurd hn (List.not_mem_nil n)
    | cons nd rest ihl =>
      intro visited hl hvis hfalse
      have hstep : (List.foldl (fun acc n => if acc.1 then acc
          else hasCycleF w.connections (w.nodes.length + w.connections.length + 1)
            n.id acc.2 []) (false, visited)) (nd :: rest)
          = List.foldl (fun acc n => if acc.1 then acc
          else hasCycleF w.connections (w.nodes.length + w.connections.length + 1)
            n.id acc.2 [])
            (hasCycleF w.connections (w.nodes.length + w.connections.length + 1)
              nd.id visited []) rest := by
        simp only [List.foldl_cons, Bool.false_eq_true, if_false]
      rw [hstep] at hfalse
      have hr1flag : (hasCycleF w.connections
          (w.nodes.length + w.connections.length + 1) nd.id visited []).1 = false := by
        by_contra hflag
        have htrue : (hasCycleF w.connections
            (w.nodes.length + w.connections.length + 1) nd.id visited []).1 = true := by
          cases hbb : (hasCycleF w.connections
              (w.nodes.length + w.connections.length + 1) nd.id visited []).1
          · exact absurd hbb hflag
          · rfl
        have heta : hasCycleF w.connections
            (w.nodes.length + w.connections.length + 1) nd.id visited []
            = (true, (hasCycleF w.connections
                (w.nodes.length + w.connections.length + 1) nd.id visited []).2) := by
          rw [← htrue]
        rw [heta, foldl_shortcircuit _ (fun acc a hacc => if_pos hacc) rest _ rfl] at hfalse
        exact absurd hfalse (by simp)
      obtain ⟨hsub, hnid, hinvF⟩ := hasCycleF_sound w
        (w.nodes.length + w.connections.length + 1) nd.id visited []
        (hl nd (List.mem_cons_self _ _)) (unvis_lt_fuel w visited)
        (fun b hbv _ => hvis b hbv) hr1flag
      have heta1 : hasCycleF w.connections
          (w.nodes.length + w.connections.length + 1) nd.id visited []
          = (false, (hasCycleF w.connections
              (w.nodes.length + w.connections.length + 1) nd.id visited []).2) := by
        rw [← hr1flag]
      rw [heta1] at hfalse
      intro n hn
      rcases List.mem_cons.mp hn with rfl | hn
      · exact hinvF n.id hnid (List.not_mem_nil _)
      · exact ihl _ (fun x hx => hl x (List.mem_cons_of_mem _ hx))
          (fun x hx => hinvF x hx (List.not_mem_nil _)) hfalse n hn
  intro nd hnd
  apply haux w.nodes [] (fun n _ => List.mem_append_left _ (List.mem_map_of_mem _ ‹n ∈ w.nodes›))
    (fun x hx => absurd hx (List.not_mem_nil x)) _ nd hnd
  unfold hasCircularDependencies at hb
  exact hb

/-- The dangling-endpoint pass of `validateWorkflow` only appends errors. -/
lemma validate_conn_fold_mem (w : Workflow) :
    ∀ (l : List NodeConnection) (errs : List String) (x : String), x ∈ errs →
      x ∈ l.foldl (fun errs conn =>
        let errs :=
          if (w.nodes.find? (fun n => n.id = conn.sourceNodeId)).isNone then
            errs ++ ["Connection references non-existent source node: " ++ conn.sourceNodeId]
          else errs
        if (w.nodes.find? (fun n => n.id = conn.targetNodeId)).isNone then
          errs ++ ["Connection references non-existent target node: " ++ conn.targetNodeId]
        else errs) errs := by
  intro l
  induction l with
  | nil => intro errs x hx; exact hx
  | cons conn rest ih =>
    intro errs x hx
    simp only [List.foldl_cons]
    apply ih
    dsimp only
    split
    · split
      · exact List.mem_append_left _ (List.mem_append_left _ hx)
      · exact List.mem_append_left _ hx
    · split
      · exact List.mem_append_left _ hx
      · exact hx

/-- Claim C5: any workflow with a connection cycle among nodes reachable
from a trigger node is reported invalid by `validateWorkflow`, with an error
mentioning "circular". -/
theorem c5_cycle_reported (w : Workflow)
    (h : ∃ t ∈ w.nodes, t.type = NodeType.trigger ∧
      ∃ n, Relation.ReflTransGen (isEdge w) t.id n ∧ Relation.TransGen (isEdge w) n n) :
    (validateWorkflow w).isValid = false ∧
    ∃ e ∈ (validateWorkflow w).errors, ∃ p q, e = p ++ "circular" ++ q := by
  obtain ⟨t, htmem, httype, n, hreach, hcyc⟩ := h
  have hcd : hasCircularDependencies w = true := by
    cases hb : hasCircularDependencies w with
    | true => rfl
    | false =>
      exact absurd ⟨n, hreach, hcyc⟩
        (hasCircularDependencies_false_no_cycle w hb t htmem)
  have hlen : ¬ ((w.nodes.filter (fun n => n.type = NodeType.trigger)).length = 0) := by
    have htf : t ∈ w.nodes.filter (fun n => n.type = NodeType.trigger) :=
      List.mem_filter.mpr ⟨htmem, by simp [httype]⟩
    intro hzero
    rw [List.length_eq_zero.mp hzero] at htf
    exact absurd htf (List.not_mem_nil t)
  have herrs : (validateWorkflow w).errors
      = w.connections.foldl (fun errs conn =>
          let errs :=
            if (w.nodes.find? (fun n => n.id = conn.sourceNodeId)).isNone then
              errs ++ ["Connection references non-existent source node: " ++ conn.sourceNodeId]
            else errs
          if (w.nodes.find? (fun n => n.id = conn.targetNodeId)).isNone then
            errs ++ ["Connection references non-existent target node: " ++ conn.targetNodeId]
          else errs) ["Workflow contains circular dependencies"] := by
    unfold validateWorkflow
    simp only [if_neg hlen, hcd, if_true, List.nil_append]
  have hmsg : "Workflow contains circular dependencies" ∈ (validateWorkflow w).errors := by
    rw [herrs]
    exact validate_conn_fold_mem w w.connections _ _ (List.mem_singleton.mpr rfl)
  constructor
  · have hne : (validateWorkflow w).errors ≠ [] := List.ne_nil_of_mem hmsg
    have hlenne : ¬ ((validateWorkflow w).errors.length = 0) := by
      intro hz
      exact hne (List.length_eq_zero.mp hz)
    have hval : (validateWorkflow w).isValid
        = decide ((validateWorkflow w).errors.length = 0) := by
      unfold validateWorkflow
      simp only []
    rw [hval]
    exact decide_eq_false hlenne
  · exact ⟨"Workflow contains circular dependencies", hmsg,
      "Workflow contains ", " dependencies", rfl⟩

/-- Witness for `c5_cycle_reported` on `wfCyc` (`T → A → B → A`): the cycle
`A → B → A` is reachable from the trigger `T`, and the validator rejects the
workflow with the "circular" error. -/
theorem c5_cycle_reported_witness :
    (validateWorkflow wfCyc).isValid = false ∧
    ∃ e ∈ (validateWorkflow wfCyc).errors, ∃ p q, e = p ++ "circular" ++ q :=
  c5_cycle_reported wfCyc
    ⟨tNode, by simp [wfCyc, tNode, aNode, bNode], rfl, "A",
      Relation.ReflTransGen.single
        ⟨cTA, by simp [wfCyc], rfl, rfl⟩,
      Relation.TransGen.head
        ⟨cAB, by simp [wfCyc], rfl, rfl⟩
        (Relation.TransGen.single ⟨cBA, by simp [wfCyc], rfl, rfl⟩)⟩
